import Mathlib

/-!
# Verification of the go-pipeline execution engine

A shallow embedding of the `pipeline` package of crowleyfelix/go-pipeline
(the scope/merge model of `scope.go`, the expression evaluators of
`pkg/expression`, and the step/pipeline execution engine of `step.go` and
`pipeline.go`), together with theorems settling the specification claims
about it.

Conventions of the embedding:
* Go `(T, error)` results become `T × Option String` (the engine) or
  `Except String T` (the evaluators); an error is its message string.
* Go maps become association lists; lookup is first-match, and a map
  update (`m[k] = v`) replaces the existing entry or appends a new one,
  so a list with distinct keys behaves exactly like the Go map.
* Goroutines and channels are not modelled; the fan-out engine is
  modelled by its deterministic sequential semantics (results consumed
  in input order, which is the order the Go code realises at
  concurrency 1; the per-result merge/short-circuit logic is the same
  code for every order).
* Recursion through sub-pipelines, `uses` references and `until` loops
  is not structurally terminating in Go (the spec notes `uses` cycles
  and always-true `until` conditions as caller hazards), so every engine
  function takes a fuel argument and returns the distinguished error
  `outOfFuel` when it runs out.
-/

set_option linter.unusedVariables false

namespace GoPipeline

/-- A dynamically typed value (Go `any`) as it occurs in scope variables and
step parameters: null, booleans, integers, strings and slices. -/
inductive Value where
  | vNull
  | vBool (b : Bool)
  | vInt (n : Int)
  | vStr (s : String)
  | vList (xs : List Value)
  deriving Repr

/-- A template string, modelled as the fragment of text/template the engine
exercises: a literal (a template with no actions renders to itself) or a
single `{{ variable . "p" }}` action reading a scope variable. -/
inductive Expr where
  | lit (s : String)
  | varE (p : String)
  deriving Repr, DecidableEq

mutual
/-- `Pipeline` from pipeline.go: `{Uses, ID, Steps}`. -/
inductive Pipeline where
  | mk (uses : String) (id : String) (steps : List Step)

/-- `Step` from step.go: `{ID, Type, Params}`. `Params` is carried here
already decoded into the parameter shape of the step's executor (Go decodes
the raw `map[string]any` through a YAML round-trip inside
`TypedStepExecutor.Execute`). -/
inductive Step where
  | mk (id : String) (ty : String) (params : StepParams)

/-- The decoded parameter shapes of the registered executors
(`SetParams`, `StopParams`, `RangeParams`, `UntilParams`, `WaitParams`,
`LogParams`, `FanoutParams`, and a bare `Pipeline` for the "pipeline"
type). `noneP` stands for parameters that do not decode into the shape the
dispatched executor expects. -/
inductive StepParams where
  | setP (value : Expr)
  | stopP (condition : Expr) (message : Expr) (isError : Expr)
  | rangeP (items : List Value) (varPath : String) (json : Expr)
      (concurrency : Expr) (pipe : Pipeline)
  | untilP (condition : Expr) (pipe : Pipeline)
  | waitP (duration : Expr)
  | logP (message : Expr)
  | fanoutP (concurrency : Expr) (pipes : List Pipeline)
  | pipelineP (pipe : Pipeline)
  | noneP
end

/-- `Pipeline.Uses`. -/
def Pipeline.Uses : Pipeline → String
  | .mk u _ _ => u

/-- `Pipeline.ID`. -/
def Pipeline.ID : Pipeline → String
  | .mk _ i _ => i

/-- `Pipeline.Steps`. -/
def Pipeline.Steps : Pipeline → List Step
  | .mk _ _ s => s

/-- `Step.ID`. -/
def Step.ID : Step → String
  | .mk i _ _ => i

/-- `Step.Type` (named `ty` because `Type` is a Lean keyword). -/
def Step.ty : Step → String
  | .mk _ t _ => t

/-- `Step.Params` (decoded). -/
def Step.params : Step → StepParams
  | .mk _ _ p => p

/-- `Pipelines`, the catalog mapping pipeline IDs to pipelines
(`map[string]Pipeline`, as an association list). -/
abbrev Pipelines := List (String × Pipeline)

/-- `VariablePath` is a string-valued dotted path. -/
abbrev VariablePath := String

/-- `Scope` from scope.go. `variables` (a Go `map[VariablePath]any`) is an
association list (field named `vars` because `variables` is a Lean keyword); the operations below keep its keys distinct exactly as
the Go map does. `CreatedAt` (a `time.Time`) is an abstract timestamp. -/
structure Scope where
  Finished : Bool
  CreatedAt : Nat
  Pipelines : Pipelines
  vars : List (VariablePath × Value)

/-- Map lookup `c.variables[path]`: first match in the association list. -/
def lookupVar (l : List (VariablePath × Value)) (p : VariablePath) : Option Value :=
  match l with
  | [] => none
  | (k, v) :: rest => if k = p then some v else lookupVar rest p

/-- Map update `variable[path] = item` on the copied map: replaces every
entry carrying the key (a distinct-key list has at most one) or appends. -/
def setVar (l : List (VariablePath × Value)) (p : VariablePath) (v : Value) :
    List (VariablePath × Value) :=
  if l.any (fun e => e.1 = p) then
    l.map (fun e => if e.1 = p then (p, v) else e)
  else
    l ++ [(p, v)]

/-- `Scope.WithVariable` from scope.go: no-op on the empty path, otherwise
returns the scope with a copied variables map holding the new entry. -/
def Scope.WithVariable (c : Scope) (path : VariablePath) (item : Value) : Scope :=
  if path = "" then c
  else { c with vars := setVar c.vars path item }

/-- `Scope.WithVariables` from scope.go: applies `WithVariable` for each
entry of the supplied map (here: in list order; Go map iteration order is
unspecified, and the engine's claims do not depend on it). -/
def Scope.WithVariables (c : Scope) (items : List (VariablePath × Value)) : Scope :=
  items.foldl (fun c e => c.WithVariable e.1 e.2) c

/-- `Scope.Clone` from scope.go: a copy with a freshly allocated variables
map; in this pure model the deep copy is the identity. -/
def Scope.Clone (c : Scope) : Scope := c

/-- `Scope.Merge` from scope.go: applies all of the argument's variables
onto the receiver via `WithVariables`. -/
def Scope.Merge (c : Scope) (other : Scope) : Scope :=
  c.WithVariables other.vars

/-- The message of `ErrVariableNotFound`. -/
def errVariableNotFound : String := "variable not found"

/-- `Scope.Variable` from scope.go: exact-match lookup, `ErrVariableNotFound`
when the path is absent. -/
def Scope.Variable (c : Scope) (path : VariablePath) : Except String Value :=
  match lookupVar c.vars path with
  | some item => .ok item
  | none => .error errVariableNotFound

/-! ## Expression evaluators (pkg/expression) -/

mutual
/-- How the Go template engine prints an `any` value interpolated into the
rendered text (`fmt` verb `%v`): models the cases the engine exercises. -/
def valueToString : Value → String
  | .vNull => "<nil>"
  | .vBool b => if b then "true" else "false"
  | .vInt n => toString n
  | .vStr s => s
  | .vList xs => "[" ++ valueListToString xs ++ "]"

/-- Space-separated rendering of a slice's elements (`fmt` `%v`). -/
def valueListToString : List Value → String
  | [] => ""
  | [x] => valueToString x
  | x :: xs => valueToString x ++ " " ++ valueListToString xs
end

/-- `strconv.ParseBool`: accepts exactly these forms. -/
def goParseBool (s : String) : Except String Bool :=
  if s = "1" ∨ s = "t" ∨ s = "T" ∨ s = "TRUE" ∨ s = "true" ∨ s = "True" then
    .ok true
  else if s = "0" ∨ s = "f" ∨ s = "F" ∨ s = "FALSE" ∨ s = "false" ∨ s = "False" then
    .ok false
  else
    .error ("strconv.ParseBool: parsing " ++ s ++ ": invalid syntax")

/-- Digit-list accumulator for the decimal parser below. -/
def parseNatDigits : List Char → Nat → Option Nat
  | [], acc => some acc
  | c :: rest, acc =>
    if '0' ≤ c ∧ c ≤ '9' then parseNatDigits rest (acc * 10 + (c.toNat - '0'.toNat))
    else none

/-- Decimal integer parsing (an optional sign followed by digits), written
with structural recursion so concrete inputs reduce definitionally; it
models Go's `strconv.Atoi` on the decimal inputs the pipelines use. -/
def parseDecInt (s : String) : Option Int :=
  match s.data with
  | [] => none
  | '-' :: rest =>
    if rest = [] then none else (parseNatDigits rest 0).map (fun n => -(n : Int))
  | '+' :: rest =>
    if rest = [] then none else (parseNatDigits rest 0).map (fun n => (n : Int))
  | l => (parseNatDigits l 0).map (fun n => (n : Int))

/-- `strconv.Atoi`. -/
def goAtoi (s : String) : Except String Int :=
  match parseDecInt s with
  | some n => .ok n
  | none => .error ("strconv.Atoi: parsing " ++ s ++ ": invalid syntax")

/-- `time.ParseDuration`, modelled on the fragment the pipelines use
(whole seconds, `"<n>s"`); the result is in nanoseconds like Go's
`time.Duration`. -/
def goParseDuration (s : String) : Except String Int :=
  match (if s.endsWith "s" then parseDecInt (s.dropRight 1) else none) with
  | some n => .ok (n * 1000000000)
  | none => .error ("time: invalid duration " ++ s)

/-- `encoding/json.Unmarshal` into `[]any`, modelled on the fragment the
claims exercise: empty input is the "unexpected end of JSON input" error,
`[]` and flat arrays of decimal integers parse, anything else errors. -/
def goJSONUnmarshalList (s : String) : Except String (List Value) :=
  if s = "" then .error "unexpected end of JSON input"
  else if s = "[]" then .ok []
  else if s.startsWith "[" ∧ s.endsWith "]" then
    let parts := (((s.drop 1).dropRight 1).splitOn ",").map String.trim
    let nums := parts.map parseDecInt
    if nums.all Option.isSome then
      .ok (nums.map (fun o => Value.vInt (o.getD 0)))
    else
      .error "invalid character in JSON array"
  else
    .error ("invalid character " ++ s.take 1 ++ " looking for beginning of value")

/-- `gopkg.in/yaml.v3 Unmarshal` of a rendered scalar, modelled on the
fragment the claims exercise: empty input leaves the target at its zero
value (no error), integers and booleans parse to themselves, anything else
stays a string. -/
def goYAMLParse (s : String) : Value :=
  if s = "" then .vNull
  else if s = "true" then .vBool true
  else if s = "false" then .vBool false
  else match parseDecInt s with
    | some n => .vInt n
    | none => .vStr s

/-- `expression.String.Eval`: renders the template against the scope as the
template's data root. A literal renders to itself; a `variable` action
renders the variable's value, or fails when the lookup fails. -/
def stringEval (e : Expr) (scope : Scope) : Except String String :=
  match e with
  | .lit s => .ok s
  | .varE p =>
    match scope.Variable p with
    | .ok v => .ok (valueToString v)
    | .error err => .error err

/-- `expression.Bool.Eval`: render, then empty text is `false` with no
error, otherwise `strconv.ParseBool`. -/
def boolEval (e : Expr) (scope : Scope) : Except String Bool :=
  match stringEval e scope with
  | .error err => .error err
  | .ok "" => .ok false
  | .ok value => goParseBool value

/-- `expression.Int.Eval`: render, then empty text is `0` with no error,
otherwise `strconv.Atoi`. -/
def intEval (e : Expr) (scope : Scope) : Except String Int :=
  match stringEval e scope with
  | .error err => .error err
  | .ok "" => .ok 0
  | .ok value => goAtoi value

/-- `expression.Duration.Eval`: render, then empty text is `0` with no
error, otherwise `time.ParseDuration`. -/
def durationEval (e : Expr) (scope : Scope) : Except String Int :=
  match stringEval e scope with
  | .error err => .error err
  | .ok "" => .ok 0
  | .ok value => goParseDuration value

/-- `expression.JSON[[]any].Eval`: render, then `json.Unmarshal` the
rendered text — with no special case for empty text. -/
def jsonEval (e : Expr) (scope : Scope) : Except String (List Value) :=
  match stringEval e scope with
  | .error err => .error err
  | .ok value => goJSONUnmarshalList value

/-- `expression.YAML[T].Eval`: render, then `yaml.Unmarshal` the rendered
text (empty text leaves the zero value, here `vNull`). -/
def yamlEval (e : Expr) (scope : Scope) : Except String Value :=
  match stringEval e scope with
  | .error err => .error err
  | .ok value => .ok (goYAMLParse value)

/-! ## Step identity and paths (step.go) -/

/-- `Step.String()`: `step-<type>`, with `-<id>` appended when the id is
non-empty. -/
def stepString (s : Step) : String :=
  if s.ID = "" then "step-" ++ s.ty else "step-" ++ s.ty ++ "-" ++ s.ID

/-- `Step.VariablePath(pathNodes...)`: the step's id (omitted when empty)
followed by the extra nodes, joined with dots. -/
def Step.VariablePath (s : Step) (pathNodes : List String) : VariablePath :=
  String.intercalate "." (if s.ID = "" then pathNodes else s.ID :: pathNodes)

/-- Modelled from the spec: the constant `PathNodeIndex` is referenced by
`RangeExecutor` but its definition is not among the provided sources; the
executor's doc example addresses the loop index as `range.$index`, so its
value is `"$index"`. -/
def PathNodeIndex : String := "$index"

/-- Catalog lookup `p.pipelines[id]`. -/
def lookupPipeline (ps : Pipelines) (id : String) : Option Pipeline :=
  match ps with
  | [] => none
  | (k, p) :: rest => if k = id then some p else lookupPipeline rest id

/-! ## Leaf step executors (step.go) -/

/-- The error result this model returns when an engine function runs out of
fuel; it stands for the nonterminating executions (`uses` cycles,
always-true `until` loops) the spec flags as caller hazards. -/
def outOfFuel : String := "model: out of fuel"

/-- The error modelling a failed YAML decode of `Step.Params` into the
dispatched executor's parameter type. -/
def decodeError : String := "yaml: cannot unmarshal step params"

/-- The Go runtime panic raised by `make(chan T, n)` for negative `n`. -/
def chanPanic : String := "panic: makechan: size out of range"

/-- The step types registered by `RegisterStepExecutors`. -/
def registeredTypes : List String :=
  ["pipeline", "set", "range", "wait", "stop", "until", "log", "fanout"]

/-- `StopExecutor` (step.go), after parameter decode: evaluate the
condition, the message and the is-error flag in that order (short-circuit
on evaluation errors); when is-error holds build the `stop error` message;
when the condition holds latch `Finished` and return that error, otherwise
return the scope unchanged with no error. -/
def StopExecutor (scope : Scope) (condition message isError : Expr) :
    Scope × Option String :=
  match boolEval condition scope with
  | .error e => (scope, some e)
  | .ok stop =>
  match stringEval message scope with
  | .error e => (scope, some e)
  | .ok msg =>
  match boolEval isError scope with
  | .error e => (scope, some e)
  | .ok isErr =>
    let err := if isErr then some ("stop error: " ++ msg) else none
    if stop then ({ scope with Finished := true }, err)
    else (scope, none)

/-- `SetExecutor` (step.go): evaluate the YAML-typed params and write the
value at the step's own path. -/
def SetExecutor (scope : Scope) (step : Step) (value : Expr) : Scope × Option String :=
  match yamlEval value scope with
  | .error e => (scope, some e)
  | .ok v => (scope.WithVariable (step.VariablePath []) v, none)

/-- `LogExecutor` (step.go): evaluate the message (logging itself has no
scope effect). -/
def LogExecutor (scope : Scope) (message : Expr) : Scope × Option String :=
  match stringEval message scope with
  | .error e => (scope, some e)
  | .ok _ => (scope, none)

/-- `WaitExecutor` (step.go): evaluate the duration; `time.Sleep` has no
scope effect. -/
def WaitExecutor (scope : Scope) (duration : Expr) : Scope × Option String :=
  match durationEval duration scope with
  | .error e => (scope, some e)
  | .ok _ => (scope, none)

/-- The Go tests `params.Variable != ""` and `params.JSON != ""` compare
the raw template string against the empty string; in this model the raw
template is empty exactly for the empty literal. -/
def exprIsEmpty : Expr → Bool
  | .lit "" => true
  | _ => false

/-- The item-gathering prefix of `RangeExecutor` (step.go): start from the
inline `items`; when `variable` is set, look it up, require a slice, and
append it (`items = append(items, v)` — the whole slice as a single item);
when `json` is set, evaluate it and append its elements
(`items = append(items, json...)`). -/
def rangeGather (scope : Scope) (items : List Value) (varPath : String) (json : Expr) :
    Except String (List Value) :=
  let afterVar : Except String (List Value) :=
    if varPath = "" then .ok items
    else
      match scope.Variable varPath with
      | .error e => .error e
      | .ok (Value.vList l) => .ok (items ++ [Value.vList l])
      | .ok _ => .error ("variable " ++ varPath ++ " is not a slice")
  match afterVar with
  | .error e => .error e
  | .ok items1 =>
    if exprIsEmpty json then .ok items1
    else
      match jsonEval json scope with
      | .error e => .error e
      | .ok l => .ok (items1 ++ l)

/-- The concurrency coercion of `RangeExecutor` (step.go):
`if concurrency == 0 { concurrency = 1 }`. -/
def rangeEffectiveConcurrency (c : Int) : Int :=
  if c = 0 then 1 else c

/-- The concurrency coercion of `FanoutExecutor` (step.go):
`if concurrency == 0 { concurrency = len(params.Pipelines) }`. -/
def fanoutEffectiveConcurrency (c : Int) (pipes : List Pipeline) : Int :=
  if c = 0 then (pipes.length : Int) else c

/-- `workerParams` (step.go): the per-unit pipeline and extra variables. -/
abbrev WorkerParams := Pipeline × List (VariablePath × Value)

/-! ## The execution engine (pipeline.go / step.go)

Every function takes a fuel argument and each nested call strictly
decreases it; running out yields the `outOfFuel` error result. -/

mutual
/-- `Pipelines.Execute` (pipeline.go): runs the pipelines named by `ids` in
order against one evolving scope; an unknown id fails with an error naming
it (the Go message also lists the available ids). -/
def Pipelines.Execute (fuel : Nat) (cat : Pipelines) (scope : Scope) (ids : List String) :
    Scope × Option String :=
  match ids with
  | [] => (scope, none)
  | id :: rest =>
    match lookupPipeline cat id with
    | none => (scope, some ("Pipeline " ++ id ++ " not found"))
    | some pipe =>
      match fuel with
      | 0 => (scope, some outOfFuel)
      | fuel + 1 =>
        match Pipeline.Execute fuel scope pipe with
        | (scope1, some e) => (scope1, some e)
        | (scope1, none) => Pipelines.Execute fuel cat scope1 rest

/-- `Pipeline.Execute` (pipeline.go), through the default interceptor
(which only logs): first the `Uses` pipeline from the scope's catalog, then
the steps in order. -/
def Pipeline.Execute (fuel : Nat) (scope : Scope) (p : Pipeline) : Scope × Option String :=
  match fuel with
  | 0 => (scope, some outOfFuel)
  | fuel + 1 =>
    match (if p.Uses = "" then (scope, none)
           else Pipelines.Execute fuel scope.Pipelines scope [p.Uses]) with
    | (scope1, some e) => (scope1, some e)
    | (scope1, none) => execSteps fuel scope1 p.Steps

/-- The step loop of `Pipeline.Execute`: for each step in order, if
`scope.Finished` is true return the current scope with no error, otherwise
dispatch the step and short-circuit on its error. -/
def execSteps (fuel : Nat) (scope : Scope) (steps : List Step) : Scope × Option String :=
  match steps with
  | [] => (scope, none)
  | step :: rest =>
    if scope.Finished then (scope, none)
    else
      match fuel with
      | 0 => (scope, some outOfFuel)
      | fuel + 1 =>
        match StepExecutors.Execute fuel scope step with
        | (scope1, some e) => (scope1, some e)
        | (scope1, none) => execSteps fuel scope1 rest

/-- `StepExecutors.Execute` (step.go): look up the executor by `step.Type`
("unknown step type" when absent, scope unchanged), run it through the
default step interceptor (which only logs), and wrap any error it returns
with the step's string identity. -/
def StepExecutors.Execute (fuel : Nat) (scope : Scope) (step : Step) : Scope × Option String :=
  if registeredTypes.contains step.ty then
    match fuel with
    | 0 => (scope, some outOfFuel)
    | fuel + 1 =>
      match executorRun fuel scope step with
      | (scope1, some e) =>
        (scope1, some ("error executing step " ++ stepString step ++ ": " ++ e))
      | ok => ok
  else
    (scope, some ("unknown step type: " ++ step.ty))

/-- The registered executor bodies (`TypedStepExecutor.Execute` plus the
specific executor): the step's params are matched against the shape the
executor decodes; a shape mismatch models a YAML decode failure. -/
def executorRun (fuel : Nat) (scope : Scope) (step : Step) : Scope × Option String :=
  match step.ty, step.params with
  | "stop", .stopP c m ie => StopExecutor scope c m ie
  | "set", .setP v => SetExecutor scope step v
  | "log", .logP m => LogExecutor scope m
  | "wait", .waitP d => WaitExecutor scope d
  | "pipeline", .pipelineP p =>
    (match fuel with
     | 0 => (scope, some outOfFuel)
     | fuel + 1 => Pipeline.Execute fuel scope p)
  | "until", .untilP c p =>
    (match fuel with
     | 0 => (scope, some outOfFuel)
     | fuel + 1 => UntilExecutor fuel scope c p)
  | "range", .rangeP items v j conc pipe =>
    (match fuel with
     | 0 => (scope, some outOfFuel)
     | fuel + 1 => RangeExecutor fuel scope step items v j conc pipe)
  | "fanout", .fanoutP conc pipes =>
    (match fuel with
     | 0 => (scope, some outOfFuel)
     | fuel + 1 => FanoutExecutor fuel scope conc pipes)
  | _, _ => (scope, some decodeError)

/-- `UntilExecutor` (step.go): evaluate the condition once, then loop. -/
def UntilExecutor (fuel : Nat) (scope : Scope) (condition : Expr) (pipe : Pipeline) :
    Scope × Option String :=
  match boolEval condition scope with
  | .error e => (scope, some e)
  | .ok proceed =>
    match fuel with
    | 0 => (scope, some outOfFuel)
    | fuel + 1 => untilLoop fuel scope condition pipe proceed

/-- The `for proceed && !scope.Finished` loop of `UntilExecutor`: execute
the embedded pipeline, short-circuit on its error, re-evaluate the
condition, repeat. -/
def untilLoop (fuel : Nat) (scope : Scope) (condition : Expr) (pipe : Pipeline)
    (proceed : Bool) : Scope × Option String :=
  if proceed ∧ scope.Finished = false then
    match fuel with
    | 0 => (scope, some outOfFuel)
    | fuel + 1 =>
      match Pipeline.Execute fuel scope pipe with
      | (scope1, some e) => (scope1, some e)
      | (scope1, none) =>
        match boolEval condition scope1 with
        | .error e => (scope1, some e)
        | .ok proceed1 => untilLoop fuel scope1 condition pipe proceed1
  else (scope, none)

/-- `RangeExecutor` (step.go): gather the item list, evaluate the
concurrency, coerce a zero concurrency to 1, and fan the embedded pipeline
out once per item with the item and its positional index as the unit's
extra variables (at the step's path and at its `$index` child). -/
def RangeExecutor (fuel : Nat) (scope : Scope) (step : Step) (items : List Value)
    (varPath : String) (json : Expr) (concurrency : Expr) (pipe : Pipeline) :
    Scope × Option String :=
  match rangeGather scope items varPath json with
  | .error e => (scope, some e)
  | .ok allItems =>
    match intEval concurrency scope with
    | .error e => (scope, some e)
    | .ok c =>
      match fuel with
      | 0 => (scope, some outOfFuel)
      | fuel + 1 =>
        fanout fuel scope (rangeEffectiveConcurrency c)
          (allItems.mapIdx fun i item =>
            (pipe, [(step.VariablePath [], item),
                    (step.VariablePath [PathNodeIndex], Value.vInt (Int.ofNat i))]))

/-- `FanoutExecutor` (step.go): evaluate the concurrency, default a zero to
the number of pipelines, and fan out each pipeline as one unit with no
extra variables. -/
def FanoutExecutor (fuel : Nat) (scope : Scope) (concurrency : Expr) (pipes : List Pipeline) :
    Scope × Option String :=
  match intEval concurrency scope with
  | .error e => (scope, some e)
  | .ok c =>
    match fuel with
    | 0 => (scope, some outOfFuel)
    | fuel + 1 =>
      fanout fuel scope (fanoutEffectiveConcurrency c pipes) (pipes.map fun p => (p, []))

/-- `fanout` (step.go), modelled sequentially: allocating the channels
(`make(chan ..., concurrency)`) panics in Go when the concurrency is
negative, modelled as the `chanPanic` error result; otherwise the
orchestrating loop consumes one worker result per unit of work. -/
def fanout (fuel : Nat) (scope : Scope) (concurrency : Int) (workers : List WorkerParams) :
    Scope × Option String :=
  if concurrency < 0 then (scope, some chanPanic)
  else
    match fuel with
    | 0 => (scope, some outOfFuel)
    | fuel + 1 => fanoutLoop fuel scope workers

/-- The orchestrating receive loop of `fanout` combined with the body of
`worker`: before each result, return immediately with no error when
`scope.Finished` is observed true; each worker executes its unit's pipeline
on a clone of the base scope extended with the unit's extra variables; a
worker error is returned with the orchestrator's scope; otherwise the
worker's result scope is merged into the running scope. -/
def fanoutLoop (fuel : Nat) (scope : Scope) (workers : List WorkerParams) :
    Scope × Option String :=
  match workers with
  | [] => (scope, none)
  | w :: rest =>
    if scope.Finished then (scope, none)
    else
      match fuel with
      | 0 => (scope, some outOfFuel)
      | fuel + 1 =>
        match Pipeline.Execute fuel (Scope.WithVariables (Scope.Clone scope) w.2) w.1 with
        | (_, some e) => (scope, some e)
        | (wscope, none) => fanoutLoop fuel (scope.Merge wscope) rest
end

/-! ## Lemmas about the scope's variables map -/

theorem lookupVar_nil (p : VariablePath) : lookupVar [] p = none := rfl

theorem lookupVar_cons (k : VariablePath) (v : Value) (rest : List (VariablePath × Value))
    (p : VariablePath) :
    lookupVar ((k, v) :: rest) p = if k = p then some v else lookupVar rest p := rfl

theorem lookupVar_append_of_none (l1 l2 : List (VariablePath × Value)) (p : VariablePath)
    (h : lookupVar l1 p = none) : lookupVar (l1 ++ l2) p = lookupVar l2 p := by
  induction l1 with
  | nil => rfl
  | cons e rest ih =>
    obtain ⟨k, w⟩ := e
    rw [lookupVar_cons] at h
    by_cases hk : k = p
    · simp [hk] at h
    · rw [if_neg hk] at h
      rw [List.cons_append, lookupVar_cons, if_neg hk]
      exact ih h

theorem lookupVar_eq_none_of_any_false (l : List (VariablePath × Value)) (p : VariablePath)
    (h : l.any (fun e => e.1 = p) = false) : lookupVar l p = none := by
  induction l with
  | nil => rfl
  | cons e rest ih =>
    obtain ⟨k, w⟩ := e
    simp only [List.any_cons, Bool.or_eq_false_iff, decide_eq_false_iff_not] at h
    rw [lookupVar_cons, if_neg h.1]
    exact ih h.2

theorem lookupVar_map_set_self (l : List (VariablePath × Value)) (p : VariablePath) (v : Value)
    (h : l.any (fun e => e.1 = p) = true) :
    lookupVar (l.map (fun e => if e.1 = p then (p, v) else e)) p = some v := by
  induction l with
  | nil => simp at h
  | cons e rest ih =>
    obtain ⟨k, w⟩ := e
    by_cases hk : k = p
    · simp [lookupVar_cons, hk]
    · simp only [List.any_cons, Bool.or_eq_true_iff, decide_eq_true_eq] at h
      have h' : rest.any (fun e => e.1 = p) = true := by
        rcases h with h | h
        · exact absurd h hk
        · exact h
      have hhead : (if (k, w).1 = p then (p, v) else (k, w)) = (k, w) := by simp [hk]
      simp only [List.map_cons, hhead]
      rw [lookupVar_cons, if_neg hk]
      exact ih h'

theorem lookupVar_map_set_other (l : List (VariablePath × Value)) (p : VariablePath) (v : Value)
    (q : VariablePath) (hq : q ≠ p) :
    lookupVar (l.map (fun e => if e.1 = p then (p, v) else e)) q = lookupVar l q := by
  induction l with
  | nil => rfl
  | cons e rest ih =>
    obtain ⟨k, w⟩ := e
    by_cases hk : k = p
    · subst hk
      have hhead : (if (k, w).1 = k then (k, v) else (k, w)) = (k, v) := by simp
      simp only [List.map_cons, hhead]
      rw [lookupVar_cons, lookupVar_cons, if_neg (fun h => hq h.symm), if_neg (fun h => hq h.symm)]
      exact ih
    · have hhead : (if (k, w).1 = p then (p, v) else (k, w)) = (k, w) := by simp [hk]
      simp only [List.map_cons, hhead]
      rw [lookupVar_cons, lookupVar_cons]
      by_cases hkq : k = q
      · simp [hkq]
      · rw [if_neg hkq, if_neg hkq]
        exact ih

theorem lookupVar_setVar_self (l : List (VariablePath × Value)) (p : VariablePath) (v : Value) :
    lookupVar (setVar l p v) p = some v := by
  unfold setVar
  cases h : l.any (fun e => e.1 = p) with
  | true =>
    rw [if_pos rfl]
    exact lookupVar_map_set_self l p v h
  | false =>
    rw [if_neg (by simp)]
    rw [lookupVar_append_of_none _ _ _ (lookupVar_eq_none_of_any_false l p h)]
    simp [lookupVar_cons]

theorem lookupVar_setVar_other (l : List (VariablePath × Value)) (p : VariablePath) (v : Value)
    (q : VariablePath) (hq : q ≠ p) :
    lookupVar (setVar l p v) q = lookupVar l q := by
  unfold setVar
  cases h : l.any (fun e => e.1 = p) with
  | true =>
    rw [if_pos rfl]
    exact lookupVar_map_set_other l p v q hq
  | false =>
    rw [if_neg (by simp)]
    cases hl : lookupVar l q with
    | some w =>
      clear h
      induction l with
      | nil => simp [lookupVar] at hl
      | cons e rest ih =>
        obtain ⟨k, w'⟩ := e
        rw [lookupVar_cons] at hl
        rw [List.cons_append, lookupVar_cons]
        by_cases hk : k = q
        · rw [if_pos hk] at hl ⊢; exact hl
        · rw [if_neg hk] at hl ⊢; exact ih hl
    | none =>
      rw [lookupVar_append_of_none _ _ _ hl, lookupVar_cons, if_neg (fun h => hq h.symm)]
      rfl

theorem WithVariable_lookup_self (c : Scope) (p : VariablePath) (v : Value) (hp : p ≠ "") :
    lookupVar (c.WithVariable p v).vars p = some v := by
  unfold Scope.WithVariable
  rw [if_neg hp]
  exact lookupVar_setVar_self c.vars p v

theorem WithVariable_lookup_other (c : Scope) (p : VariablePath) (v : Value)
    (q : VariablePath) (hq : q ≠ p) :
    lookupVar (c.WithVariable p v).vars q = lookupVar c.vars q := by
  unfold Scope.WithVariable
  by_cases hp : p = ""
  · rw [if_pos hp]
  · rw [if_neg hp]
    exact lookupVar_setVar_other c.vars p v q hq

theorem WithVariable_frame (c : Scope) (p : VariablePath) (v : Value) :
    (c.WithVariable p v).Finished = c.Finished ∧
    (c.WithVariable p v).CreatedAt = c.CreatedAt ∧
    (c.WithVariable p v).Pipelines = c.Pipelines := by
  unfold Scope.WithVariable
  by_cases hp : p = "" <;> simp [hp]

theorem WithVariables_frame (items : List (VariablePath × Value)) (c : Scope) :
    (c.WithVariables items).Finished = c.Finished ∧
    (c.WithVariables items).CreatedAt = c.CreatedAt ∧
    (c.WithVariables items).Pipelines = c.Pipelines := by
  induction items generalizing c with
  | nil => exact ⟨rfl, rfl, rfl⟩
  | cons e rest ih =>
    have h1 := WithVariable_frame c e.1 e.2
    have h2 := ih (c.WithVariable e.1 e.2)
    exact ⟨h2.1.trans h1.1, h2.2.1.trans h1.2.1, h2.2.2.trans h1.2.2⟩

theorem Merge_frame (a b : Scope) :
    (a.Merge b).Finished = a.Finished ∧
    (a.Merge b).CreatedAt = a.CreatedAt ∧
    (a.Merge b).Pipelines = a.Pipelines :=
  WithVariables_frame b.vars a

theorem WithVariables_lookup_of_forall_ne (items : List (VariablePath × Value)) (c : Scope)
    (p : VariablePath) (h : ∀ e ∈ items, e.1 ≠ p) :
    lookupVar (c.WithVariables items).vars p = lookupVar c.vars p := by
  induction items generalizing c with
  | nil => rfl
  | cons e rest ih =>
    have he : e.1 ≠ p := h e (List.mem_cons_self e rest)
    have hrest : ∀ x ∈ rest, x.1 ≠ p := fun x hx => h x (List.mem_cons_of_mem _ hx)
    show lookupVar ((c.WithVariable e.1 e.2).WithVariables rest).vars p = _
    rw [ih (c.WithVariable e.1 e.2) hrest]
    exact WithVariable_lookup_other c e.1 e.2 p (fun hc => he hc.symm)

theorem WithVariables_lookup_of_found (items : List (VariablePath × Value)) (c : Scope)
    (p : VariablePath) (v : Value) (hp : p ≠ "")
    (hnd : (items.map Prod.fst).Nodup) (hfind : lookupVar items p = some v) :
    lookupVar (c.WithVariables items).vars p = some v := by
  induction items generalizing c with
  | nil => simp [lookupVar] at hfind
  | cons e rest ih =>
    obtain ⟨k, w⟩ := e
    rw [List.map_cons, List.nodup_cons] at hnd
    by_cases hk : k = p
    · subst hk
      rw [lookupVar_cons, if_pos rfl] at hfind
      have hrest : ∀ x ∈ rest, x.1 ≠ k := by
        intro x hx hcontra
        exact hnd.1 (List.mem_map.mpr ⟨x, hx, hcontra⟩)
      show lookupVar ((c.WithVariable k w).WithVariables rest).vars k = some v
      rw [WithVariables_lookup_of_forall_ne rest _ k hrest,
        WithVariable_lookup_self c k w hp]
      exact hfind
    · rw [lookupVar_cons, if_neg hk] at hfind
      exact ih (c.WithVariable k w) hnd.2 hfind

theorem forall_ne_of_lookupVar_none (l : List (VariablePath × Value)) (p : VariablePath)
    (h : lookupVar l p = none) : ∀ e ∈ l, e.1 ≠ p := by
  induction l with
  | nil => intro e he; cases he
  | cons x rest ih =>
    obtain ⟨k, w⟩ := x
    rw [lookupVar_cons] at h
    by_cases hk : k = p
    · rw [if_pos hk] at h; cases h
    · rw [if_neg hk] at h
      intro e he
      rcases List.mem_cons.mp he with hh | hh
      · subst hh; exact hk
      · exact ih h e hh

/-! ## Claim C1: Merge's source-wins law -/

/-- C1 (as stated) is false: at the empty variable path the source-wins law
fails, because `WithVariable` discards writes to the empty path.  Concretely,
with `a` holding `"" ↦ 1` and `b` holding `"" ↦ 2`, the path `""` is
present in both scopes, yet `a.Merge(b)` maps it to `a`'s value `1`, not to
`b`'s value `2`. -/
theorem c1_counterexample :
    lookupVar (Scope.mk false 0 [] [("", .vInt 1)]).vars "" = some (.vInt 1) ∧
    lookupVar (Scope.mk true 7 [] [("", .vInt 2)]).vars "" = some (.vInt 2) ∧
    ((Scope.mk false 0 [] [("", .vInt 1)]).Merge
        (Scope.mk true 7 [] [("", .vInt 2)])).Variable "" = .ok (.vInt 1) ∧
    Value.vInt 1 ≠ Value.vInt 2 := by
  refine ⟨rfl, rfl, rfl, ?_⟩
  simp

/-- C1 (amended): for every pair of scopes `a` and `b` (with the variables
maps carrying distinct keys, as Go maps do) and every NON-EMPTY variable
path `p`: if `p` is present in both then `a.Merge(b)` maps it to `b`'s
value; if `p` is present only in `a` then to `a`'s value; if `p` is present
only in `b` then to `b`'s value.  (The empty path is exempt: `WithVariable`
makes writing it a no-op, so `Merge` discards `b`'s entry at `""` and
preserves `a`'s.) -/
theorem c1_merge_source_wins (a b : Scope) (p : VariablePath) (hp : p ≠ "")
    (hnd : (b.vars.map Prod.fst).Nodup) :
    (lookupVar a.vars p ≠ none →
      ∀ v, lookupVar b.vars p = some v → (a.Merge b).Variable p = .ok v) ∧
    (lookupVar b.vars p = none →
      ∀ v, lookupVar a.vars p = some v → (a.Merge b).Variable p = .ok v) ∧
    (lookupVar a.vars p = none →
      ∀ v, lookupVar b.vars p = some v → (a.Merge b).Variable p = .ok v) := by
  have hb : ∀ v, lookupVar b.vars p = some v → (a.Merge b).Variable p = .ok v := by
    intro v hfind
    unfold Scope.Variable Scope.Merge
    rw [WithVariables_lookup_of_found b.vars a p v hp hnd hfind]
  have ha : lookupVar b.vars p = none →
      ∀ v, lookupVar a.vars p = some v → (a.Merge b).Variable p = .ok v := by
    intro hnone v hfind
    have hne : ∀ e ∈ b.vars, e.1 ≠ p := forall_ne_of_lookupVar_none b.vars p hnone
    unfold Scope.Variable Scope.Merge
    rw [WithVariables_lookup_of_forall_ne b.vars a p hne, hfind]
  exact ⟨fun _ => hb, ha, fun _ => hb⟩

/-- Witness for `c1_merge_source_wins` at concrete scopes: `a` holds
`x ↦ 1, y ↦ 3`, `b` holds `x ↦ 2`; the merge maps `x` (present in both) to
`b`'s `2` and `y` (only in `a`) to `a`'s `3`. -/
theorem c1_merge_source_wins_witness :
    ((Scope.mk false 0 [] [("x", .vInt 1), ("y", .vInt 3)]).Merge
        (Scope.mk false 0 [] [("x", .vInt 2)])).Variable "x" = .ok (.vInt 2) ∧
    ((Scope.mk false 0 [] [("x", .vInt 1), ("y", .vInt 3)]).Merge
        (Scope.mk false 0 [] [("x", .vInt 2)])).Variable "y" = .ok (.vInt 3) := by
  constructor
  · exact (c1_merge_source_wins (Scope.mk false 0 [] [("x", .vInt 1), ("y", .vInt 3)])
      (Scope.mk false 0 [] [("x", .vInt 2)]) "x" (by simp) (by simp)).1
      (by simp [lookupVar_cons]) (.vInt 2) rfl
  · exact (c1_merge_source_wins (Scope.mk false 0 [] [("x", .vInt 1), ("y", .vInt 3)])
      (Scope.mk false 0 [] [("x", .vInt 2)]) "y" (by simp) (by simp)).2.1
      rfl (.vInt 3) rfl

/-! ## Claim C8: exact-match variable lookup -/

/-- C8: `Scope.Variable(path)` returns the stored value with no error when
the path is present — including a stored nil (`vNull`) — and fails with the
"variable not found" error exactly when the path is absent; an absent path
never yields a value with no error. -/
theorem c8_variable_lookup (c : Scope) (p : VariablePath) :
    (∀ v, lookupVar c.vars p = some v → c.Variable p = .ok v) ∧
    (lookupVar c.vars p = none → c.Variable p = .error errVariableNotFound) ∧
    (lookupVar c.vars p = none → ∀ v, c.Variable p ≠ .ok v) := by
  refine ⟨fun v h => ?_, fun h => ?_, fun h v hcontra => ?_⟩
  · unfold Scope.Variable
    rw [h]
  · unfold Scope.Variable
    rw [h]
  · unfold Scope.Variable at hcontra
    rw [h] at hcontra
    cases hcontra

/-- Witness for `c8_variable_lookup`: a scope holding `x ↦ nil` returns
`ok nil` for `x` (found-but-nil), and the "variable not found" error for
the absent path `y`. -/
theorem c8_variable_lookup_witness :
    (Scope.mk false 0 [] [("x", .vNull)]).Variable "x" = .ok .vNull ∧
    (Scope.mk false 0 [] [("x", .vNull)]).Variable "y" = .error errVariableNotFound := by
  constructor
  · exact (c8_variable_lookup (Scope.mk false 0 [] [("x", .vNull)]) "x").1 .vNull rfl
  · exact (c8_variable_lookup (Scope.mk false 0 [] [("x", .vNull)]) "y").2.1 rfl

/-! ## Claim C10: Merge only folds the variables -/

/-- C10: `a.Merge(b)` leaves every non-variables field of `a` unchanged —
the result keeps `a`'s `Finished` flag, `a`'s `CreatedAt` timestamp and
`a`'s `Pipelines` reference, whatever `b`'s values for those fields are. -/
theorem c10_merge_frame (a b : Scope) :
    (a.Merge b).Finished = a.Finished ∧
    (a.Merge b).CreatedAt = a.CreatedAt ∧
    (a.Merge b).Pipelines = a.Pipelines :=
  Merge_frame a b

/-! ## Latch lemmas for the Finished flag -/

theorem execSteps_finished (fuel : Nat) (scope : Scope) (steps : List Step)
    (h : scope.Finished = true) : execSteps fuel scope steps = (scope, none) := by
  cases steps with
  | nil => cases fuel <;> rfl
  | cons s rest => cases fuel <;> simp [execSteps, h]

theorem untilLoop_finished (fuel : Nat) (scope : Scope) (condition : Expr) (pipe : Pipeline)
    (proceed : Bool) (h : scope.Finished = true) :
    untilLoop fuel scope condition pipe proceed = (scope, none) := by
  cases fuel <;> simp [untilLoop, h]

theorem fanoutLoop_finished (fuel : Nat) (scope : Scope) (workers : List WorkerParams)
    (h : scope.Finished = true) : fanoutLoop fuel scope workers = (scope, none) := by
  cases workers with
  | nil => cases fuel <;> rfl
  | cons w rest => cases fuel <;> simp [fanoutLoop, h]

theorem execEngine_latch : ∀ fuel : Nat,
    (∀ (cat : Pipelines) (scope : Scope) (ids : List String), scope.Finished = true →
      (Pipelines.Execute fuel cat scope ids).1.Finished = true) ∧
    (∀ (scope : Scope) (p : Pipeline), scope.Finished = true →
      (Pipeline.Execute fuel scope p).1.Finished = true) := by
  intro fuel
  induction fuel with
  | zero =>
    refine ⟨fun cat scope ids h => ?_, fun scope p h => h⟩
    cases ids with
    | nil => exact h
    | cons id rest =>
      unfold Pipelines.Execute
      cases lookupPipeline cat id <;> exact h
  | succ fuel ih =>
    refine ⟨fun cat scope ids h => ?_, fun scope p h => ?_⟩
    · cases ids with
      | nil => exact h
      | cons id rest =>
        unfold Pipelines.Execute
        cases hlk : lookupPipeline cat id with
        | none => exact h
        | some pipe =>
          show (match Pipeline.Execute fuel scope pipe with
                | (scope1, some e) => (scope1, some e)
                | (scope1, none) => Pipelines.Execute fuel cat scope1 rest).1.Finished = true
          cases hexec : Pipeline.Execute fuel scope pipe with
          | mk s1 err =>
            have hs1 : s1.Finished = true := by
              have hh := ih.2 scope pipe h
              rw [hexec] at hh
              exact hh
            cases err with
            | none => exact ih.1 cat s1 rest hs1
            | some e => exact hs1
    · unfold Pipeline.Execute
      by_cases hu : p.Uses = ""
      · rw [if_pos hu]
        show (execSteps fuel scope p.Steps).1.Finished = true
        rw [execSteps_finished fuel scope p.Steps h]
        exact h
      · rw [if_neg hu]
        cases hexec : Pipelines.Execute fuel scope.Pipelines scope [p.Uses] with
        | mk s1 err =>
          have hs1 : s1.Finished = true := by
            have hh := ih.1 scope.Pipelines scope [p.Uses] h
            rw [hexec] at hh
            exact hh
          cases err with
          | none =>
            show (execSteps fuel s1 p.Steps).1.Finished = true
            rw [execSteps_finished fuel s1 p.Steps hs1]
            exact hs1
          | some e => exact hs1

/-! ## Shared concrete fixtures -/

/-- A fresh scope over an empty catalog (as `NewScope` builds, with the
timestamp abstracted to 0). -/
def scope0 : Scope := Scope.mk false 0 [] []

/-- A pipeline whose single step is a `stop` with condition `"true"`, empty
message and `is_error` `"false"`. -/
def stopPipe : Pipeline :=
  Pipeline.mk "" "stopper" [Step.mk "" "stop" (.stopP (.lit "true") (.lit "") (.lit "false"))]

/-- A three-step pipeline: step 1 sets `a`, step 2 stops (condition true,
not an error), step 3 would set `c`. -/
def demoPipe : Pipeline := Pipeline.mk "" "demo"
  [Step.mk "a" "set" (.setP (.lit "1")),
   Step.mk "" "stop" (.stopP (.lit "true") (.lit "") (.lit "false")),
   Step.mk "c" "set" (.setP (.lit "1"))]

/-! ## Claim C2: the Finished flag across the execution tree -/

/-- C2 (as stated) is false at the fan-out merge: running `fanout` over a
single unit whose pipeline is a `stop` step (condition true, not an error),
the worker's result scope — which `fanout` computes as
`Pipeline.Execute fuel (scope.Clone().WithVariables(vars)) pipe` — has
`Finished = true` and no error, yet the orchestrating scope `fanout`
returns has `Finished = false`: the worker's flag is dropped by `Merge`. -/
theorem c2_counterexample :
    (Pipeline.Execute 4 (Scope.WithVariables (Scope.Clone scope0) []) stopPipe).1.Finished
      = true ∧
    (Pipeline.Execute 4 (Scope.WithVariables (Scope.Clone scope0) []) stopPipe).2 = none ∧
    (fanout 6 scope0 1 [(stopPipe, [])]).1.Finished = false ∧
    (fanout 6 scope0 1 [(stopPipe, [])]).2 = none :=
  ⟨rfl, rfl, rfl, rfl⟩

/-- C2 (amended): the Finished flag is latched along the orchestrating
scope's own lineage — if it is true before a sequential step, an `until`
iteration, a fan-out result receive, or a whole pipeline execution, it is
true afterwards — and the fan-out merge keeps exactly the orchestrating
scope's flag: `Merge` gives the receiver's Finished flag, so a worker's
`Finished = true` does not propagate into the orchestrating scope. -/
theorem c2_finished_latch :
    (∀ (fuel : Nat) (scope : Scope) (steps : List Step), scope.Finished = true →
      execSteps fuel scope steps = (scope, none)) ∧
    (∀ (fuel : Nat) (scope : Scope) (condition : Expr) (pipe : Pipeline) (proceed : Bool),
      scope.Finished = true → untilLoop fuel scope condition pipe proceed = (scope, none)) ∧
    (∀ (fuel : Nat) (scope : Scope) (workers : List WorkerParams), scope.Finished = true →
      fanoutLoop fuel scope workers = (scope, none)) ∧
    (∀ (fuel : Nat) (scope : Scope) (p : Pipeline), scope.Finished = true →
      (Pipeline.Execute fuel scope p).1.Finished = true) ∧
    (∀ a b : Scope, (a.Merge b).Finished = a.Finished) :=
  ⟨execSteps_finished, untilLoop_finished, fanoutLoop_finished,
    fun fuel scope p => (execEngine_latch fuel).2 scope p,
    fun a b => (Merge_frame a b).1⟩

/-- Witness for `c2_finished_latch` at concrete inputs: a finished scope
passes a step loop untouched, and merging a finished worker scope into an
unfinished one leaves it unfinished. -/
theorem c2_finished_latch_witness :
    execSteps 3 (Scope.mk true 0 [] []) [Step.mk "c" "set" (.setP (.lit "1"))]
      = (Scope.mk true 0 [] [], none) ∧
    ((Scope.mk false 0 [] []).Merge (Scope.mk true 7 [] [])).Finished = false :=
  ⟨c2_finished_latch.1 3 (Scope.mk true 0 [] []) [Step.mk "c" "set" (.setP (.lit "1"))] rfl,
   (c2_finished_latch.2.2.2.2 (Scope.mk false 0 [] []) (Scope.mk true 7 [] [])).trans rfl⟩

/-! ## Claim C3: graceful early termination of the step loop -/

/-- C3: `Pipeline.Execute` iterates the steps in order and, once the
scope's Finished flag is true before some step, returns the current scope
with no error, executing neither that step nor any later one; in
particular the three-step demo pipeline whose second step stops without an
error executes exactly steps 1–2 (the variable `a` is written, `c` is not)
and returns no error with Finished true. -/
theorem c3_execute_stops_when_finished :
    (∀ (fuel : Nat) (scope : Scope) (steps : List Step), scope.Finished = true →
      execSteps fuel scope steps = (scope, none)) ∧
    (∀ (fuel : Nat) (scope : Scope) (p : Pipeline), scope.Finished = true → p.Uses = "" →
      Pipeline.Execute (fuel + 1) scope p = (scope, none)) ∧
    ((Pipeline.Execute 10 scope0 demoPipe).2 = none ∧
     (Pipeline.Execute 10 scope0 demoPipe).1.Finished = true ∧
     lookupVar (Pipeline.Execute 10 scope0 demoPipe).1.vars "a" = some (.vInt 1) ∧
     lookupVar (Pipeline.Execute 10 scope0 demoPipe).1.vars "c" = none) := by
  refine ⟨execSteps_finished, fun fuel scope p h hu => ?_, rfl, rfl, rfl, rfl⟩
  unfold Pipeline.Execute
  rw [if_pos hu]
  show execSteps fuel scope p.Steps = (scope, none)
  exact execSteps_finished fuel scope p.Steps h

/-- Witness for `c3_execute_stops_when_finished`: a finished scope skips a
`log` step's loop, and a finished scope makes a one-step pipeline (with no
`uses`) return unchanged with no error. -/
theorem c3_execute_stops_when_finished_witness :
    execSteps 2 (Scope.mk true 0 [] []) [Step.mk "z" "log" (.logP (.lit "hi"))]
      = (Scope.mk true 0 [] [], none) ∧
    Pipeline.Execute 3 (Scope.mk true 5 [] [])
      (Pipeline.mk "" "w" [Step.mk "z" "set" (.setP (.lit "1"))])
      = (Scope.mk true 5 [] [], none) :=
  ⟨c3_execute_stops_when_finished.1 2 (Scope.mk true 0 [] [])
      [Step.mk "z" "log" (.logP (.lit "hi"))] rfl,
   c3_execute_stops_when_finished.2.1 2 (Scope.mk true 5 [] [])
      (Pipeline.mk "" "w" [Step.mk "z" "set" (.setP (.lit "1"))]) rfl rfl⟩

/-! ## Claim C4: the stop step -/

/-- C4: once the stop step's three parameters evaluate without error, a
true condition latches Finished and returns an error containing the
evaluated message exactly when is-error is true (no error when it is
false); a false condition returns the scope unchanged with no error,
whatever is-error evaluated to. -/
theorem c4_stop_executor (scope : Scope) (condition message isError : Expr)
    (c : Bool) (m : String) (ie : Bool)
    (hc : boolEval condition scope = .ok c)
    (hm : stringEval message scope = .ok m)
    (hie : boolEval isError scope = .ok ie) :
    (c = true →
      (StopExecutor scope condition message isError).1.Finished = true ∧
      (ie = true →
        ∃ pre post, (StopExecutor scope condition message isError).2 = some (pre ++ m ++ post)) ∧
      (ie = false → (StopExecutor scope condition message isError).2 = none)) ∧
    (c = false → StopExecutor scope condition message isError = (scope, none)) := by
  unfold StopExecutor
  rw [hc, hm, hie]
  constructor
  · intro hcT
    subst hcT
    refine ⟨rfl, fun hieT => ?_, fun hieF => ?_⟩
    · subst hieT
      refine ⟨"stop error: ", "", ?_⟩
      rw [String.append_empty]
      rfl
    · subst hieF
      rfl
  · intro hcF
    subst hcF
    rfl

/-- Witness for `c4_stop_executor`: with condition `"true"`, message
`"boom"` and is-error `"true"` the stop step latches Finished and errors
with a message containing "boom"; with condition `"false"` it is a
no-op. -/
theorem c4_stop_executor_witness :
    (StopExecutor scope0 (.lit "true") (.lit "boom") (.lit "true")).1.Finished = true ∧
    (∃ pre post,
      (StopExecutor scope0 (.lit "true") (.lit "boom") (.lit "true")).2
        = some (pre ++ "boom" ++ post)) ∧
    StopExecutor scope0 (.lit "false") (.lit "boom") (.lit "true") = (scope0, none) :=
  ⟨((c4_stop_executor scope0 (.lit "true") (.lit "boom") (.lit "true")
      true "boom" true rfl rfl rfl).1 rfl).1,
   ((c4_stop_executor scope0 (.lit "true") (.lit "boom") (.lit "true")
      true "boom" true rfl rfl rfl).1 rfl).2.1 rfl,
   (c4_stop_executor scope0 (.lit "false") (.lit "boom") (.lit "true")
      false "boom" true rfl rfl rfl).2 rfl⟩

/-! ## Claim C5: the range step's item gathering -/

/-- C5: evaluating the item-gathering code of `RangeExecutor` at a scope
whose variable `xs` holds the slice `[1, 2]` (inline items empty, json
unset) yields a ONE-element item list whose single item is the whole
slice — `items = append(items, v)` appends the slice as a single item —
whereas the claim (and the executor's own slice check and documentation)
expect the slice's elements `[1, 2]` to be appended. -/
theorem c5_range_variable_slice_single_item :
    rangeGather (Scope.mk false 0 [] [("xs", .vList [.vInt 1, .vInt 2])]) [] "xs" (.lit "")
      = .ok [.vList [.vInt 1, .vInt 2]] ∧
    rangeGather (Scope.mk false 0 [] [("xs", .vList [.vInt 1, .vInt 2])]) [] "xs" (.lit "")
      ≠ .ok [.vInt 1, .vInt 2] := by
  constructor
  · rfl
  · intro hcontra
    have h0 : rangeGather (Scope.mk false 0 [] [("xs", .vList [.vInt 1, .vInt 2])]) [] "xs"
        (.lit "") = .ok [.vList [.vInt 1, .vInt 2]] := rfl
    rw [h0] at hcontra
    simp at hcontra

/-! ## Claim C6: the concurrency coercion -/

/-- C6 (as stated) is false for negative values: the range step's coercion
leaves `-1` at `-1` (only an exact zero is coerced), which is not at least
1, and `fanout` at a negative concurrency faults at the channel allocation
instead of running a worker. -/
theorem c6_counterexample :
    rangeEffectiveConcurrency (-1) = -1 ∧
    ¬(1 ≤ rangeEffectiveConcurrency (-1)) ∧
    fanout 5 scope0 (rangeEffectiveConcurrency (-1)) [(stopPipe, [])]
      = (scope0, some chanPanic) :=
  ⟨rfl, by decide, rfl⟩

/-- C6 (amended): a non-negative concurrency is coerced to at least 1 by
the range step (an exact zero becomes 1); the fanout step defaults an exact
zero to the number of pipelines; a negative concurrency is passed through
unchanged and makes the fan-out engine's channel allocation fault. -/
theorem c6_concurrency_coercion (c : Int) :
    (0 ≤ c → 1 ≤ rangeEffectiveConcurrency c) ∧
    (c < 0 → rangeEffectiveConcurrency c = c ∧
      ∀ (fuel : Nat) (scope : Scope) (workers : List WorkerParams),
        fanout fuel scope c workers = (scope, some chanPanic)) ∧
    (∀ pipes : List Pipeline, fanoutEffectiveConcurrency 0 pipes = (pipes.length : Int)) := by
  refine ⟨fun h0 => ?_, fun hneg => ⟨?_, fun fuel scope workers => ?_⟩, fun pipes => rfl⟩
  · unfold rangeEffectiveConcurrency
    by_cases hc : c = 0
    · rw [if_pos hc]
    · rw [if_neg hc]
      omega
  · unfold rangeEffectiveConcurrency
    rw [if_neg (by omega)]
  · cases fuel <;> simp [fanout, hneg]

/-- Witness for `c6_concurrency_coercion`: zero is coerced to 1 and a
concurrency of `-2` makes the engine fault. -/
theorem c6_concurrency_coercion_witness :
    1 ≤ rangeEffectiveConcurrency 0 ∧
    fanout 5 scope0 (-2) [] = (scope0, some chanPanic) :=
  ⟨(c6_concurrency_coercion 0).1 (by decide),
   ((c6_concurrency_coercion (-2)).2.1 (by decide)).2 5 scope0 []⟩

/-! ## Claim C7: executor dispatch and error wrapping -/

/-- C7: dispatching a step whose type has no registered executor fails
with an error naming the unknown type and returns the scope unchanged
(never a silent skip), and an error returned by a found executor is
wrapped with the step's string identity. -/
theorem c7_step_dispatch (scope : Scope) (step : Step) :
    (registeredTypes.contains step.ty = false →
      ∀ fuel : Nat, StepExecutors.Execute fuel scope step
        = (scope, some ("unknown step type: " ++ step.ty))) ∧
    (∃ pre, "unknown step type: " ++ step.ty = pre ++ step.ty) ∧
    (registeredTypes.contains step.ty = true →
      ∀ (fuel : Nat) (s1 : Scope) (e : String), executorRun fuel scope step = (s1, some e) →
        StepExecutors.Execute (fuel + 1) scope step
          = (s1, some ("error executing step " ++ stepString step ++ ": " ++ e))) := by
  refine ⟨fun habs fuel => ?_, ⟨"unknown step type: ", rfl⟩, fun hreg fuel s1 e hrun => ?_⟩
  · cases fuel with
    | zero =>
      unfold StepExecutors.Execute
      rw [habs]
      rfl
    | succ n =>
      unfold StepExecutors.Execute
      rw [habs]
      rfl
  · unfold StepExecutors.Execute
    rw [hreg]
    show (match executorRun fuel scope step with
          | (scope1, some e) =>
            (scope1, some ("error executing step " ++ stepString step ++ ": " ++ e))
          | ok => ok) = _
    rw [hrun]

/-- Witness for `c7_step_dispatch`: the unknown type `"bogus"` fails with
an error naming it, and a stop step whose condition reads an absent
variable fails with the lookup error wrapped in the step's identity. -/
theorem c7_step_dispatch_witness :
    StepExecutors.Execute 3 scope0 (Step.mk "x" "bogus" .noneP)
      = (scope0, some ("unknown step type: " ++ "bogus")) ∧
    StepExecutors.Execute 4 scope0
      (Step.mk "" "stop" (.stopP (.varE "missing") (.lit "") (.lit "false")))
      = (scope0, some ("error executing step "
          ++ stepString (Step.mk "" "stop" (.stopP (.varE "missing") (.lit "") (.lit "false")))
          ++ ": " ++ errVariableNotFound)) :=
  ⟨(c7_step_dispatch scope0 (Step.mk "x" "bogus" .noneP)).1 rfl 3,
   (c7_step_dispatch scope0
      (Step.mk "" "stop" (.stopP (.varE "missing") (.lit "") (.lit "false")))).2.2
      rfl 3 scope0 errVariableNotFound rfl⟩

/-! ## Claim C9: empty rendered text across the expression kinds -/

/-- C9 (as stated) is false for the JSON kind: a JSON-typed expression
whose template renders to the empty string returns the JSON unmarshal
error "unexpected end of JSON input", not the kind's zero value with a nil
error. -/
theorem c9_counterexample :
    jsonEval (.lit "") scope0 = .error "unexpected end of JSON input" ∧
    jsonEval (.lit "") scope0 ≠ .ok [] := by
  constructor
  · rfl
  · intro h
    have h0 : jsonEval (.lit "") scope0 = .error "unexpected end of JSON input" := rfl
    rw [h0] at h
    cases h

/-- C9 (amended): when the template renders to the empty string, the
boolean, integer, duration and structured-YAML kinds return their zero
values with no error, while the JSON kind returns the unmarshal error
(its `Eval` has no empty-text special case). -/
theorem c9_empty_renders_zero (e : Expr) (scope : Scope)
    (h : stringEval e scope = .ok "") :
    boolEval e scope = .ok false ∧
    intEval e scope = .ok 0 ∧
    durationEval e scope = .ok 0 ∧
    yamlEval e scope = .ok .vNull ∧
    jsonEval e scope = .error "unexpected end of JSON input" := by
  unfold boolEval intEval durationEval yamlEval jsonEval
  rw [h]
  exact ⟨rfl, rfl, rfl, rfl, rfl⟩

/-- Witness for `c9_empty_renders_zero` at the empty literal template. -/
theorem c9_empty_renders_zero_witness :
    boolEval (.lit "") scope0 = .ok false ∧
    intEval (.lit "") scope0 = .ok 0 ∧
    durationEval (.lit "") scope0 = .ok 0 :=
  ⟨(c9_empty_renders_zero (.lit "") scope0 rfl).1,
   (c9_empty_renders_zero (.lit "") scope0 rfl).2.1,
   (c9_empty_renders_zero (.lit "") scope0 rfl).2.2.1⟩

end GoPipeline
